import Mathlib

/-!
Verification of the extraction pipeline of `app_2.py`
(PDF-Entity-Relation-Extractor-using-Mistral-AI).

Modelling conventions:
* Python `str` values are modelled as `List Char` (sequences of Unicode
  scalar values); slicing `s[i:j]`, `str.strip()` and `str.split(sep)` are
  modelled by explicit functions below.
* The call to the external Mistral service (`client.chat.complete`,
  line 66) is abstracted by an `Oracle`: for each 1-based segment index,
  the outcome of that segment's request in the run under consideration —
  `Except.ok payload` (the raw response text) or `Except.error cause`
  (the message of the exception raised).
* The chunk size is an explicit parameter `c` of the embedded functions;
  the source reads it from the module-level configuration constant
  `CHUNK_SIZE = 20000` (line 18).
* Streamlit side effects (`st.progress`, `progress.progress`, `st.error`)
  are recorded in an `Event` trace.  The value the caller of
  `extract_entities_relations` receives is the `output` field alone,
  matching the source's single return value (line 79).
-/

/-- Python strings, modelled as lists of Unicode scalar values. -/
abbrev Str := List Char

/-- Default whitespace characters removed by Python's `str.strip()`
(the ASCII ones; other Unicode whitespace characters do not occur in this
development). -/
def pyWhitespace (ch : Char) : Bool :=
  ch == ' ' || ch == '\t' || ch == '\n' || ch == '\r' || ch == '\x0b' || ch == '\x0c'

/-- Python `s.strip()`: remove leading and trailing whitespace. -/
def pyStrip (s : Str) : Str :=
  ((s.dropWhile pyWhitespace).reverse.dropWhile pyWhitespace).reverse

/-- Python `range(0, stop, step)` for `step > 0`: the multiples of `step`
below `stop`, that is `[0, step, 2*step, ...]` with `ceil(stop/step)`
elements. -/
def pyRange (stop step : Nat) : List Nat :=
  (List.range ((stop + step - 1) / step)).map (fun k => k * step)

/-- The chunker, line 39 of `app_2.py`:
`chunks = [text[i:i + CHUNK_SIZE] for i in range(0, len(text), CHUNK_SIZE)]`,
with the chunk size `c` as an explicit parameter.  Python's `range` with a
step of `0` raises `ValueError`, so only `c > 0` is meaningful; Python
slices clamp at the string's end exactly as `drop`/`take` do. -/
def chunkSplit (c : Nat) (text : Str) : List Str :=
  (pyRange text.length c).map (fun i => (text.drop i).take c)

/-- Configured chunk size (characters per chunk), line 18. -/
def CHUNK_SIZE : Nat := 20000

/-- Configured model identifier, line 15. -/
def MODEL_NAME : Str := "mistral-small-2501".toList

/-- Observable Streamlit side effects of one run of
`extract_entities_relations`, in order of occurrence. -/
inductive Event where
  /-- Line 43: `st.progress(0, ...)` — the progress bar is created at 0. -/
  | progressInit : Event
  /-- Line 47: `progress.progress(i / total_chunks, ...)` at the top of the
  loop body for segment `i` of `total`. -/
  | progressUpdate (i total : Nat) : Event
  /-- Line 66: the outbound `client.chat.complete` request for segment `i`. -/
  | callMade (i : Nat) : Event
  /-- Line 74: `st.error(...)` for segment `i`, in the `except` branch. -/
  | errorShown (i : Nat) : Event
  /-- Line 78: `progress.progress(1.0, ...)` after the loop. -/
  | progressDone : Event
deriving DecidableEq

/-- Outcome of the external extraction call for each 1-based segment index
of the run under consideration: `ok` with the raw response text or `error`
with the exception's message.  Within one run each index determines one
request, so indexing the outcomes by the segment index is faithful. -/
abbrev Oracle := Nat → Except Str Str

/-- Body of the `for i, chunk in enumerate(chunks, start=1)` loop,
lines 46–75, over the remaining `(index, chunk)` pairs: returns the
contributions of these iterations to the `all_results` accumulator,
together with the Streamlit events they emit.  On success the response is
stripped and appended (lines 70–71); on failure an error is shown and the
loop continues (lines 72–75). -/
def runLoop (oracle : Oracle) (total : Nat) : List (Nat × Str) → List Str × List Event
  | [] => ([], [])
  | p :: rest =>
    let step := runLoop oracle total rest
    match oracle p.1 with
    | Except.ok r =>
        (pyStrip r :: step.1,
         Event.progressUpdate p.1 total :: Event.callMade p.1 :: step.2)
    | Except.error _ =>
        (step.1,
         Event.progressUpdate p.1 total :: Event.callMade p.1 ::
           Event.errorShown p.1 :: step.2)

/-- Result of one run of `extract_entities_relations`: `output` is the
value returned to the caller (line 79), `events` the trace of Streamlit
side effects. -/
structure RunResult where
  output : Str
  events : List Event
deriving DecidableEq

/-- The `all_results` list and loop event trace of one whole run, i.e. the
loop of lines 46–75 executed over the enumerated chunks. -/
def runPair (c : Nat) (oracle : Oracle) (text : Str) : List Str × List Event :=
  let chunks := chunkSplit c text
  runLoop oracle chunks.length ((List.range' 1 chunks.length).zip chunks)

/-- `extract_entities_relations(text)`, lines 34–79: chunk the text,
process every chunk in order, and return `"\n".join(all_results)`;
the event trace additionally records the progress-bar creation (line 43)
and the terminal progress update (line 78). -/
def extract_entities_relations (c : Nat) (oracle : Oracle) (text : Str) : RunResult :=
  { output := List.intercalate ['\n'] (runPair c oracle text).1
    events := Event.progressInit :: ((runPair c oracle text).2 ++ [Event.progressDone]) }

/-- The `all_results` accumulator of one run: the stripped payloads of the
successful segments, in segment order (lines 42, 70–71). -/
def aggregatedPayloads (c : Nat) (oracle : Oracle) (text : Str) : List Str :=
  (runPair c oracle text).1

/-- Segment indices reported via `st.error` during a run — the skipped
segments. -/
def skippedOf (evs : List Event) : List Nat :=
  evs.filterMap (fun e => match e with | Event.errorShown i => some i | _ => none)

/-- The upload handler's size safeguard, lines 112–114: text longer than
1,000,000 characters is truncated to its first 1,000,000 characters before
being handed to `extract_entities_relations` (line 121). -/
def uploaded_file_run (c : Nat) (oracle : Oracle) (pdf_text : Str) : RunResult :=
  let capped := if pdf_text.length > 1000000 then pdf_text.take 1000000 else pdf_text
  extract_entities_relations c oracle capped

/-- Python `csv` default-dialect (QUOTE_MINIMAL) quoting test: a field is
quoted iff it contains the delimiter, the quote character, or a character
of the line terminator `\r\n`. -/
def csvNeedsQuote (f : Str) : Bool :=
  f.any (fun ch => ch == ',' || ch == '"' || ch == '\r' || ch == '\n')

/-- Quote-escaping of one character inside a quoted field: the quote
character is doubled. -/
def csvEscapeChar (ch : Char) : Str :=
  if ch == '"' then ['"', '"'] else [ch]

/-- One serialized field under the default csv dialect. -/
def csvField (f : Str) : Str :=
  if csvNeedsQuote f then ('"' :: f.flatMap csvEscapeChar) ++ ['"'] else f

/-- `csv.writer(...).writerow(row)` under the default dialect: fields
joined by commas, terminated by `\r\n`; a record that would otherwise
serialize to zero characters while having at least one field (a single
empty field) is written as a quoted empty field `""` (CPython `_csv.c`,
`csv_writerow`). -/
def csvRow (row : List Str) : Str :=
  let joined := List.intercalate [','] (row.map csvField)
  if !row.isEmpty && joined.isEmpty then ['"', '"', '\r', '\n']
  else joined ++ ['\r', '\n']

/-- The `for line in lines` loop of `convert_to_csv`, lines 87–89, writing
into the `io.StringIO` buffer `out`: each line is split on commas, every
column stripped, and the row written. -/
def writerLoop (out : Str) : List Str → Str
  | [] => out
  | line :: rest => writerLoop (out ++ csvRow ((line.splitOn ',').map pyStrip)) rest

/-- `convert_to_csv(data_str)` up to UTF-8 encoding, lines 82–90:
`lines = data_str.strip().split("\n")`, then one `writerow` per line. -/
def convert_to_csv_text (data_str : Str) : Str :=
  writerLoop [] ((pyStrip data_str).splitOn '\n')

/-- UTF-8 encoding of one Unicode scalar value, as a list of byte values. -/
def utf8Bytes (ch : Char) : List Nat :=
  if ch.toNat < 128 then [ch.toNat]
  else if ch.toNat < 2048 then [192 + ch.toNat / 64, 128 + ch.toNat % 64]
  else if ch.toNat < 65536 then
    [224 + ch.toNat / 4096, 128 + ch.toNat / 64 % 64, 128 + ch.toNat % 64]
  else
    [240 + ch.toNat / 262144, 128 + ch.toNat / 4096 % 64, 128 + ch.toNat / 64 % 64,
     128 + ch.toNat % 64]

/-- UTF-8 encoding of a string, modelling `str.encode("utf-8")`. -/
def encodeUtf8 (s : Str) : List Nat := s.flatMap utf8Bytes

/-- `convert_to_csv(data_str)`: the byte sequence returned at line 90. -/
def convert_to_csv (data_str : Str) : List Nat :=
  encodeUtf8 (convert_to_csv_text data_str)

/-- Stated from the words of the serializer claim, for comparison with
`convert_to_csv_text`; it is not a translation of the source.  Split the
aggregated string into lines on line breaks; drop empty trailing lines
(and only those); split each line into comma-separated fields, trimming
surrounding whitespace from each field; write exactly one table row per
resulting line. -/
def claimStatedSerialize (data_str : Str) : Str :=
  (((data_str.splitOn '\n').reverse.dropWhile List.isEmpty).reverse.map
    (fun line => csvRow ((line.splitOn ',').map pyStrip))).flatten

/-- Concrete text used by the chunker witnesses. -/
def wChunkText : Str := "abcdefgh".toList

/-- Concrete oracle for the partial-failure witness: segment 1 fails,
every other segment succeeds. -/
def w4oracle : Oracle := fun i =>
  if i = 1 then Except.error "boom".toList else Except.ok " A,B ".toList

/-- Concrete per-segment payloads for the all-success witness. -/
def w5payload : Nat → Str := fun i =>
  if i = 1 then "A,B".toList else "C,D".toList

/-- Concrete all-success oracle. -/
def w5oracle : Oracle := fun i => Except.ok (w5payload i)

/-- Concrete all-success oracle with a fixed payload. -/
def w6oracle : Oracle := fun _ => Except.ok "OK".toList

/-- Oracle failing exactly at segment 1, succeeding with payload `X`
elsewhere. -/
def c3OracleA : Oracle := fun i =>
  if i = 1 then Except.error "E".toList else Except.ok "X".toList

/-- Oracle failing exactly at segment 2, succeeding with payload `X`
elsewhere. -/
def c3OracleB : Oracle := fun i =>
  if i = 2 then Except.error "E".toList else Except.ok "X".toList

/-- Concrete per-segment payloads for the single-failure witness. -/
def w3payload : Nat → Str := fun _ => "X".toList

/-- Oracle failing exactly at segment 2, succeeding with `w3payload`
elsewhere. -/
def w3oracle : Oracle := fun i =>
  if i = 2 then Except.error "E".toList else Except.ok (w3payload i)

/-- A concrete text of 1,000,001 characters for the input-cap witness. -/
def w9text : Str := List.replicate 1000001 'a'

/-- Concrete oracle for the input-cap witness. -/
def w9oracle : Oracle := fun _ => Except.ok "OK".toList

theorem chunkSplit_nil (c : Nat) : chunkSplit c [] = [] := by
  have h : (c - 1) / c = 0 := by
    rcases Nat.eq_zero_or_pos c with h | h
    · simp [h]
    · exact Nat.div_eq_of_lt (by omega)
  simp [chunkSplit, pyRange, h]

theorem chunkSplit_cons (c : Nat) (t : Str) (hc : 0 < c) (ht : t ≠ []) :
    chunkSplit c t = t.take c :: chunkSplit c (t.drop c) := by
  have hn : 0 < t.length := List.length_pos.mpr ht
  rcases Nat.lt_or_ge c t.length with hcn | hcn
  · unfold chunkSplit pyRange
    have hm : (t.length + c - 1) / c = (t.length - 1) / c + 1 := by
      have h1 : t.length + c - 1 = (t.length - 1) + c := by omega
      rw [h1, Nat.add_div_right _ hc]
    have hm2 : ((t.drop c).length + c - 1) / c = (t.length - 1) / c := by
      have h2 : (t.drop c).length = t.length - c := by simp
      have h3 : t.length - c + c - 1 = t.length - 1 := by omega
      rw [h2, h3]
    rw [hm, hm2, List.range_succ_eq_map]
    simp only [List.map_cons, List.map_map, Function.comp, Nat.zero_mul,
      List.drop_zero]
    refine congrArg (fun l => t.take c :: l) ?_
    apply List.map_congr_left
    intro k _
    show (t.drop (k.succ * c)).take c = ((t.drop c).drop (k * c)).take c
    rw [List.drop_drop]
    congr 1
    congr 1
    have h5 := Nat.succ_mul k c
    omega
  · have hdrop : t.drop c = [] := List.drop_eq_nil_of_le hcn
    have htake : t.take c = t := List.take_of_length_le hcn
    rw [hdrop, chunkSplit_nil]
    unfold chunkSplit pyRange
    have hm : (t.length + c - 1) / c = 1 :=
      Nat.div_eq_of_lt_le (by omega) (by omega)
    have hr1 : List.range 1 = [0] := by decide
    rw [hm]
    simp [hr1, htake]

theorem chunkSplit_flatten_aux (c : Nat) (hc : 0 < c) :
    ∀ (n : Nat) (t : Str), t.length ≤ n → (chunkSplit c t).flatten = t := by
  intro n
  induction n with
  | zero =>
    intro t ht
    have ht0 : t = [] := by
      cases t with
      | nil => rfl
      | cons a l => simp at ht
    subst ht0
    simp [chunkSplit_nil]
  | succ n ih =>
    intro t ht
    by_cases h : t = []
    · subst h; simp [chunkSplit_nil]
    · have hpos : 0 < t.length := List.length_pos.mpr h
      rw [chunkSplit_cons c t hc h, List.flatten_cons,
        ih (t.drop c) (by simp; omega)]
      exact List.take_append_drop c t

/-- C1: for every text `t` and chunk size `c > 0`, concatenating the
chunker's output segments in index order reproduces `t` exactly — no
overlap, no gaps, no reordering. -/
theorem chunker_concat_roundtrip (c : Nat) (t : Str) (hc : 0 < c) :
    (chunkSplit c t).flatten = t :=
  chunkSplit_flatten_aux c hc t.length t (Nat.le_refl _)

/-- Witness for `chunker_concat_roundtrip`: chunk size 3 on a concrete
8-character text. -/
theorem chunker_concat_roundtrip_witness :
    (chunkSplit 3 wChunkText).flatten = wChunkText :=
  chunker_concat_roundtrip 3 wChunkText (by decide)

theorem chunkSplit_length_aux (c : Nat) (hc : 0 < c) :
    ∀ (n : Nat) (t : Str), t.length ≤ n →
      (chunkSplit c t).length = (t.length + c - 1) / c := by
  intro n
  induction n with
  | zero =>
    intro t ht
    have ht0 : t = [] := by
      cases t with
      | nil => rfl
      | cons a l => simp at ht
    subst ht0
    simp [chunkSplit_nil]
    symm
    exact Nat.div_eq_of_lt (by omega)
  | succ n ih =>
    intro t ht
    by_cases h : t = []
    · subst h
      simp [chunkSplit_nil]
      symm
      exact Nat.div_eq_of_lt (by omega)
    · have hpos : 0 < t.length := List.length_pos.mpr h
      rw [chunkSplit_cons c t hc h]
      simp only [List.length_cons]
      rw [ih (t.drop c) (by simp; omega)]
      simp only [List.length_drop]
      rcases Nat.lt_or_ge c t.length with hcn | hcn
      · have h1 : t.length - c + c - 1 = t.length - 1 := by omega
        have h2 : t.length + c - 1 = (t.length - 1) + c := by omega
        rw [h1, h2, Nat.add_div_right _ hc]
      · have h1 : t.length - c = 0 := by omega
        have h2 : (t.length + c - 1) / c = 1 :=
          Nat.div_eq_of_lt_le (by omega) (by omega)
        have h3 : (0 + c - 1) / c = 0 := Nat.div_eq_of_lt (by omega)
        rw [h1, h2, h3]

theorem chunkSplit_full_aux (c : Nat) (hc : 0 < c) :
    ∀ (n : Nat) (t : Str), t.length ≤ n →
      ∀ seg ∈ (chunkSplit c t).dropLast, seg.length = c := by
  intro n
  induction n with
  | zero =>
    intro t ht seg hseg
    have ht0 : t = [] := by
      cases t with
      | nil => rfl
      | cons a l => simp at ht
    subst ht0
    simp [chunkSplit_nil] at hseg
  | succ n ih =>
    intro t ht seg hseg
    by_cases h : t = []
    · subst h; simp [chunkSplit_nil] at hseg
    · have hpos : 0 < t.length := List.length_pos.mpr h
      rw [chunkSplit_cons c t hc h] at hseg
      by_cases hd : t.drop c = []
      · rw [hd, chunkSplit_nil] at hseg
        simp at hseg
      · have hrec := chunkSplit_cons c (t.drop c) hc hd
        rcases hcs : chunkSplit c (t.drop c) with _ | ⟨x, xs⟩
        · rw [hcs] at hrec; simp at hrec
        · rw [hcs] at hseg
          rw [List.dropLast_cons₂] at hseg
          rcases List.mem_cons.mp hseg with h1 | h2
          · subst h1
            have hlen : c < t.length := by
              have hdl : 0 < (t.drop c).length := List.length_pos.mpr hd
              simp at hdl
              omega
            simp [List.length_take]
            omega
          · rw [← hcs] at h2
            exact ih (t.drop c) (by simp; omega) seg h2

/-- C2: for every text `t` and chunk size `c > 0`, the chunker produces
exactly `ceil(length(t)/c)` segments (written `(length + c - 1) / c`), and
every segment except possibly the last has length exactly `c`. -/
theorem chunker_count_and_full_segments (c : Nat) (t : Str) (hc : 0 < c) :
    (chunkSplit c t).length = (t.length + c - 1) / c
  ∧ ∀ seg ∈ (chunkSplit c t).dropLast, seg.length = c :=
  ⟨chunkSplit_length_aux c hc t.length t (Nat.le_refl _),
   chunkSplit_full_aux c hc t.length t (Nat.le_refl _)⟩

/-- Witness for `chunker_count_and_full_segments`: chunk size 3 on a
concrete 8-character text, with the membership instantiated at the first
segment. -/
theorem chunker_count_and_full_segments_witness :
    (chunkSplit 3 wChunkText).length = (wChunkText.length + 3 - 1) / 3
  ∧ ("abc".toList).length = 3 :=
  ⟨(chunker_count_and_full_segments 3 wChunkText (by decide)).1,
   (chunker_count_and_full_segments 3 wChunkText (by decide)).2
     "abc".toList (by decide)⟩

theorem writerLoop_eq (ls : List Str) : ∀ out : Str,
    writerLoop out ls
      = out ++ (ls.map (fun line => csvRow ((line.splitOn ',').map pyStrip))).flatten := by
  induction ls with
  | nil => intro out; simp [writerLoop]
  | cons line rest ih =>
    intro out
    rw [writerLoop, ih]
    simp [List.append_assoc]

theorem runLoop_fst (oracle : Oracle) (total : Nat) :
    ∀ pairs : List (Nat × Str),
      (runLoop oracle total pairs).1
        = pairs.filterMap (fun p => match oracle p.1 with
            | Except.ok r => some (pyStrip r)
            | Except.error _ => none) := by
  intro pairs
  induction pairs with
  | nil => simp [runLoop]
  | cons p rest ih =>
    cases h : oracle p.1 with
    | ok r => simp [runLoop, h, ih]
    | error e => simp [runLoop, h, ih]

theorem runLoop_snd (oracle : Oracle) (total : Nat) :
    ∀ pairs : List (Nat × Str),
      (runLoop oracle total pairs).2
        = pairs.flatMap (fun p =>
            Event.progressUpdate p.1 total :: Event.callMade p.1 ::
              (match oracle p.1 with
               | Except.ok _ => []
               | Except.error _ => [Event.errorShown p.1])) := by
  intro pairs
  induction pairs with
  | nil => simp [runLoop]
  | cons p rest ih =>
    cases h : oracle p.1 with
    | ok r => simp [runLoop, h, ih]
    | error e => simp [runLoop, h, ih]

theorem zip_fst_filterMap {α β γ : Type} (f : α → Option γ) :
    ∀ (as : List α) (bs : List β), as.length ≤ bs.length →
      (as.zip bs).filterMap (fun p => f p.1) = as.filterMap f := by
  intro as
  induction as with
  | nil => intro bs h; simp
  | cons a as ih =>
    intro bs h
    cases bs with
    | nil => simp at h
    | cons b bs =>
      have h' : as.length ≤ bs.length := by simp at h; omega
      cases hfa : f a with
      | none => simp [List.zip_cons_cons, List.filterMap_cons, hfa, ih bs h']
      | some v => simp [List.zip_cons_cons, List.filterMap_cons, hfa, ih bs h']

theorem zip_fst_flatMap {α β γ : Type} (f : α → List γ) :
    ∀ (as : List α) (bs : List β), as.length ≤ bs.length →
      (as.zip bs).flatMap (fun p => f p.1) = as.flatMap f := by
  intro as
  induction as with
  | nil => intro bs h; simp
  | cons a as ih =>
    intro bs h
    cases bs with
    | nil => simp at h
    | cons b bs =>
      have h' : as.length ≤ bs.length := by simp at h; omega
      simp [List.zip_cons_cons, List.flatMap_cons, ih bs h']

theorem filterMap_all_some {α β : Type} (f : α → Option β) (g : α → β) :
    ∀ l : List α, (∀ a ∈ l, f a = some (g a)) → l.filterMap f = l.map g := by
  intro l
  induction l with
  | nil => intro _; simp
  | cons a l ih =>
    intro h
    have ha := h a (List.mem_cons_self a l)
    simp [List.filterMap_cons, ha,
      ih (fun b hb => h b (List.mem_cons_of_mem a hb))]

theorem filterMap_skip_one {α β : Type} [DecidableEq α]
    (f : α → Option β) (g : α → β) (k : α) :
    ∀ l : List α, (∀ a ∈ l, f a = if a = k then none else some (g a)) →
      l.filterMap f = (l.filter (fun a => !(a == k))).map g := by
  intro l
  induction l with
  | nil => intro _; simp
  | cons a l ih =>
    intro h
    have ha := h a (List.mem_cons_self a l)
    have hrec := ih (fun b hb => h b (List.mem_cons_of_mem a hb))
    by_cases hak : a = k
    · have hfa : f a = none := by rw [ha, if_pos hak]
      have hpa : (!(a == k)) = false := by simp [hak]
      simp [List.filterMap_cons, hfa, List.filter_cons, hpa, hrec]
    · have hfa : f a = some (g a) := by rw [ha, if_neg hak]
      have hpa : (!(a == k)) = true := by simp [hak]
      simp [List.filterMap_cons, hfa, List.filter_cons, hpa, hrec]

theorem filterMap_eq_single {α : Type} [DecidableEq α] (f : α → Option α) (k : α) :
    ∀ l : List α, l.Nodup → k ∈ l →
      (∀ a ∈ l, f a = if a = k then some k else none) →
      l.filterMap f = [k] := by
  intro l
  induction l with
  | nil => intro _ hk _; simp at hk
  | cons a l ih =>
    intro hnd hk h
    have ha := h a (List.mem_cons_self a l)
    rcases List.nodup_cons.mp hnd with ⟨hanotin, hndl⟩
    by_cases hak : a = k
    · have hfa : f a = some k := by rw [ha, if_pos hak]
      have hnone : ∀ b ∈ l, f b = none := by
        intro b hb
        have hfb := h b (List.mem_cons_of_mem a hb)
        have hbk : b ≠ k := by
          intro he
          apply hanotin
          rw [hak, ← he]
          exact hb
        rw [hfb, if_neg hbk]
      simp [List.filterMap_cons, hfa, List.filterMap_eq_nil_iff.mpr hnone]
    · have hk' : k ∈ l := by
        rcases List.mem_cons.mp hk with h1 | h1
        · exact absurd h1.symm hak
        · exact h1
      have hfa : f a = none := by rw [ha, if_neg hak]
      simp [List.filterMap_cons, hfa,
        ih hndl hk' (fun b hb => h b (List.mem_cons_of_mem a hb))]

theorem length_filter_ne {α : Type} [DecidableEq α] (k : α) :
    ∀ l : List α, l.Nodup → k ∈ l →
      (l.filter (fun a => !(a == k))).length = l.length - 1 := by
  intro l
  induction l with
  | nil => intro _ hk; simp at hk
  | cons a l ih =>
    intro hnd hk
    rcases List.nodup_cons.mp hnd with ⟨hanotin, hndl⟩
    by_cases hak : a = k
    · have hflt : l.filter (fun a => !(a == k)) = l := by
        apply List.filter_eq_self.mpr
        intro b hb
        have hbk : b ≠ k := by
          intro he
          apply hanotin
          rw [hak, ← he]
          exact hb
        simp [hbk]
      simp [List.filter_cons, hak, hflt]
    · have hk' : k ∈ l := by
        rcases List.mem_cons.mp hk with h1 | h1
        · exact absurd h1.symm hak
        · exact h1
      have hlen : 0 < l.length := List.length_pos.mpr (by
        intro he
        rw [he] at hk'
        simp at hk')
      have h2 := ih hndl hk'
      simp only [List.filter_cons, List.length_cons]
      rw [if_pos (by simp [hak])]
      simp only [List.length_cons, h2]
      omega

theorem countP_flatMap_one {α β : Type} (p : β → Bool) (f : α → List β)
    (h : ∀ a, (f a).countP p = 1) :
    ∀ l : List α, ((l.flatMap f).countP p) = l.length := by
  intro l
  induction l with
  | nil => simp
  | cons a l ih =>
    simp only [List.flatMap_cons, List.countP_append, List.length_cons, h a, ih]
    omega

theorem runPair_fst (c : Nat) (oracle : Oracle) (text : Str) :
    (runPair c oracle text).1
      = (List.range' 1 (chunkSplit c text).length).filterMap
          (fun i => match oracle i with
            | Except.ok r => some (pyStrip r)
            | Except.error _ => none) := by
  simp only [runPair]
  rw [runLoop_fst]
  exact zip_fst_filterMap
    (fun i => match oracle i with
      | Except.ok r => some (pyStrip r)
      | Except.error _ => none)
    (List.range' 1 (chunkSplit c text).length) (chunkSplit c text)
    (by simp [List.length_range'])

theorem runPair_snd (c : Nat) (oracle : Oracle) (text : Str) :
    (runPair c oracle text).2
      = (List.range' 1 (chunkSplit c text).length).flatMap
          (fun i => Event.progressUpdate i (chunkSplit c text).length ::
            Event.callMade i ::
              (match oracle i with
               | Except.ok _ => []
               | Except.error _ => [Event.errorShown i])) := by
  simp only [runPair]
  rw [runLoop_snd]
  exact zip_fst_flatMap
    (fun i => Event.progressUpdate i (chunkSplit c text).length ::
      Event.callMade i ::
        (match oracle i with
         | Except.ok _ => []
         | Except.error _ => [Event.errorShown i]))
    (List.range' 1 (chunkSplit c text).length) (chunkSplit c text)
    (by simp [List.length_range'])

theorem run_skipped (c : Nat) (oracle : Oracle) (text : Str) :
    skippedOf (extract_entities_relations c oracle text).events
      = skippedOf (runPair c oracle text).2 := by
  simp [extract_entities_relations, skippedOf, List.filterMap_append]

theorem runPair_skipped (c : Nat) (oracle : Oracle) (text : Str) :
    skippedOf (runPair c oracle text).2
      = (List.range' 1 (chunkSplit c text).length).filterMap
          (fun i => match oracle i with
            | Except.ok _ => none
            | Except.error _ => some i) := by
  simp only [runPair]
  rw [runLoop_snd]  
  rw [zip_fst_flatMap
    (fun i => Event.progressUpdate i (chunkSplit c text).length ::
      Event.callMade i ::
        (match oracle i with
         | Except.ok _ => []
         | Except.error _ => [Event.errorShown i]))
    (List.range' 1 (chunkSplit c text).length) (chunkSplit c text)
    (by simp [List.length_range'])]
  induction (List.range' 1 (chunkSplit c text).length) with
  | nil => simp [skippedOf]
  | cons i rest ih =>
    cases h : oracle i with
    | ok r => simp [List.flatMap_cons, skippedOf, h] at ih ⊢; exact ih
    | error e => simp [List.flatMap_cons, skippedOf, h] at ih ⊢; exact ih

/-- C3, counterexample to the claim as stated: the value
`extract_entities_relations` returns to its caller is the joined string
alone (line 79), so it carries no skipped-index list.  Two runs over the
same text in which a different segment fails (segment 1 under `c3OracleA`,
segment 2 under `c3OracleB`) return identical values, while the skipped
segments — reported only through `st.error` events — differ. -/
theorem run_returns_no_skipped_list_cex :
    (extract_entities_relations 2 c3OracleA ("abcd".toList)).output
      = (extract_entities_relations 2 c3OracleB ("abcd".toList)).output
  ∧ skippedOf (extract_entities_relations 2 c3OracleA ("abcd".toList)).events = [1]
  ∧ skippedOf (extract_entities_relations 2 c3OracleB ("abcd".toList)).events = [2] := by
  decide

/-- C3 (amended): the run returns only the aggregated string; the skipped
segment indices are reported during the run via `st.error` notifications,
not returned.  For every run in which exactly one segment `k` fails and
all others succeed, the reported skipped indices are exactly `[k]`, and the
`all_results` accumulator holds exactly `totalSegments - 1` payloads — the
stripped payloads of the surviving segments in their original relative
order. -/
theorem run_single_failure_report (c k : Nat) (oracle : Oracle) (text : Str)
    (p : Nat → Str) (e : Str) (_hc : 0 < c)
    (hk : k ∈ List.range' 1 (chunkSplit c text).length)
    (hfail : oracle k = Except.error e)
    (hok : ∀ i, i ≠ k → oracle i = Except.ok (p i)) :
    skippedOf (extract_entities_relations c oracle text).events = [k]
  ∧ aggregatedPayloads c oracle text
      = ((List.range' 1 (chunkSplit c text).length).filter (fun i => !(i == k))).map
          (fun i => pyStrip (p i))
  ∧ (aggregatedPayloads c oracle text).length = (chunkSplit c text).length - 1 := by
  have hnd : (List.range' 1 (chunkSplit c text).length).Nodup :=
    List.nodup_range' 1 (chunkSplit c text).length
  have hpay : aggregatedPayloads c oracle text
      = ((List.range' 1 (chunkSplit c text).length).filter (fun i => !(i == k))).map
          (fun i => pyStrip (p i)) := by
    unfold aggregatedPayloads
    rw [runPair_fst]
    apply filterMap_skip_one
    intro a _
    by_cases hak : a = k
    · rw [hak, hfail, if_pos rfl]
    · rw [hok a hak, if_neg hak]
  refine ⟨?_, hpay, ?_⟩
  · rw [run_skipped, runPair_skipped]
    apply filterMap_eq_single _ k _ hnd hk
    intro a _
    by_cases hak : a = k
    · rw [hak, hfail, if_pos rfl]
    · rw [hok a hak, if_neg hak]
  · rw [hpay, List.length_map, length_filter_ne k _ hnd hk, List.length_range']

/-- Witness for `run_single_failure_report`: chunk size 2 over a concrete
6-character text (3 segments), with segment 2 failing under `w3oracle`. -/
theorem run_single_failure_report_witness :
    skippedOf (extract_entities_relations 2 w3oracle ("abcdef".toList)).events = [2]
  ∧ aggregatedPayloads 2 w3oracle ("abcdef".toList)
      = ((List.range' 1 (chunkSplit 2 ("abcdef".toList)).length).filter
          (fun i => !(i == 2))).map (fun i => pyStrip (w3payload i))
  ∧ (aggregatedPayloads 2 w3oracle ("abcdef".toList)).length
      = (chunkSplit 2 ("abcdef".toList)).length - 1 :=
  run_single_failure_report 2 2 w3oracle ("abcdef".toList) w3payload ("E".toList)
    (by decide) (by decide) rfl
    (fun i hi => by simp [w3oracle, hi])

/-- C4: a segment failure is never raised to the caller and never aborts
the run — the embedded function is total, the request of every segment is
issued exactly once whatever the other segments' outcomes (the run
continues past failures), and the caller receives the aggregation of
exactly the successful segments' stripped payloads, joined by line
breaks. -/
theorem run_continues_after_failures (c : Nat) (oracle : Oracle) (text : Str)
    (_hc : 0 < c) :
    (extract_entities_relations c oracle text).output
      = List.intercalate ['\n']
          ((List.range' 1 (chunkSplit c text).length).filterMap
            (fun i => match oracle i with
              | Except.ok r => some (pyStrip r)
              | Except.error _ => none))
  ∧ ((extract_entities_relations c oracle text).events.countP
      (fun e => match e with | Event.callMade _ => true | _ => false))
      = (chunkSplit c text).length := by
  constructor
  · simp only [extract_entities_relations]
    rw [runPair_fst]
  · simp only [extract_entities_relations, List.countP_cons, List.countP_append]
    rw [runPair_snd,
      countP_flatMap_one _ _ (fun i => by cases oracle i <;> simp [List.countP_cons])]
    simp [List.length_range']

/-- Witness for `run_continues_after_failures`: chunk size 2 on a concrete
4-character text with segment 1 failing under `w4oracle`. -/
theorem run_continues_after_failures_witness :
    (extract_entities_relations 2 w4oracle ("abcd".toList)).output
      = List.intercalate ['\n']
          ((List.range' 1 (chunkSplit 2 ("abcd".toList)).length).filterMap
            (fun i => match w4oracle i with
              | Except.ok r => some (pyStrip r)
              | Except.error _ => none))
  ∧ ((extract_entities_relations 2 w4oracle ("abcd".toList)).events.countP
      (fun e => match e with | Event.callMade _ => true | _ => false))
      = (chunkSplit 2 ("abcd".toList)).length :=
  run_continues_after_failures 2 w4oracle ("abcd".toList) (by decide)

/-- C5: if every extraction call of the run succeeds, the `all_results`
accumulator holds exactly one entry per segment, in segment order — the
stripped success payloads — and the returned aggregation is those payloads
joined by single line breaks. -/
theorem run_all_success_output (c : Nat) (oracle : Oracle) (text : Str)
    (p : Nat → Str) (_hc : 0 < c)
    (hok : ∀ i ∈ List.range' 1 (chunkSplit c text).length,
      oracle i = Except.ok (p i)) :
    aggregatedPayloads c oracle text
      = (List.range' 1 (chunkSplit c text).length).map (fun i => pyStrip (p i))
  ∧ (aggregatedPayloads c oracle text).length = (chunkSplit c text).length
  ∧ (extract_entities_relations c oracle text).output
      = List.intercalate ['\n']
          ((List.range' 1 (chunkSplit c text).length).map (fun i => pyStrip (p i))) := by
  have h1 : aggregatedPayloads c oracle text
      = (List.range' 1 (chunkSplit c text).length).map (fun i => pyStrip (p i)) := by
    unfold aggregatedPayloads
    rw [runPair_fst]
    apply filterMap_all_some
    intro a ha
    rw [hok a ha]
  refine ⟨h1, ?_, ?_⟩
  · rw [h1, List.length_map, List.length_range']
  · simp only [extract_entities_relations]
    have h2 : (runPair c oracle text).1 = aggregatedPayloads c oracle text := rfl
    rw [h2, h1]

/-- Witness for `run_all_success_output`: chunk size 2 on a concrete
4-character text with the all-success oracle `w5oracle`. -/
theorem run_all_success_output_witness :
    aggregatedPayloads 2 w5oracle ("abcd".toList)
      = (List.range' 1 (chunkSplit 2 ("abcd".toList)).length).map
          (fun i => pyStrip (w5payload i))
  ∧ (aggregatedPayloads 2 w5oracle ("abcd".toList)).length
      = (chunkSplit 2 ("abcd".toList)).length
  ∧ (extract_entities_relations 2 w5oracle ("abcd".toList)).output
      = List.intercalate ['\n']
          ((List.range' 1 (chunkSplit 2 ("abcd".toList)).length).map
            (fun i => pyStrip (w5payload i))) :=
  run_all_success_output 2 w5oracle ("abcd".toList) w5payload (by decide)
    (fun i _ => rfl)

/-- C6, counterexample to the claim as stated: progress is reported at the
top of the loop body, before the segment's extraction call, not after the
segment completes.  On a one-segment run the trace shows the update for
segment 1 preceding its call, and the trace the claim predicts (call first,
update after) differs from the actual one. -/
theorem run_progress_before_call_cex :
    (extract_entities_relations 2 w6oracle ("ab".toList)).events
      = [Event.progressInit, Event.progressUpdate 1 1, Event.callMade 1,
         Event.progressDone]
  ∧ (extract_entities_relations 2 w6oracle ("ab".toList)).events
      ≠ [Event.progressInit, Event.callMade 1, Event.progressUpdate 1 1,
         Event.progressDone] := by
  decide

/-- C6 (amended): after the progress bar is created at zero, the progress
callback is invoked exactly once per segment — immediately before that
segment's extraction call, with the segment's index and the total count —
plus exactly one terminal completion call after the loop: `n + 1`
progress invocations besides the creation, whatever the outcomes. -/
theorem run_progress_trace (c : Nat) (oracle : Oracle) (text : Str)
    (_hc : 0 < c) :
    (extract_entities_relations c oracle text).events
      = Event.progressInit ::
          (((List.range' 1 (chunkSplit c text).length).flatMap
            (fun i => Event.progressUpdate i (chunkSplit c text).length ::
              Event.callMade i ::
                (match oracle i with
                 | Except.ok _ => []
                 | Except.error _ => [Event.errorShown i])))
           ++ [Event.progressDone])
  ∧ ((extract_entities_relations c oracle text).events.countP
      (fun e => match e with
        | Event.progressUpdate _ _ => true
        | Event.progressDone => true
        | _ => false)) = (chunkSplit c text).length + 1 := by
  constructor
  · simp only [extract_entities_relations]
    rw [runPair_snd]
  · simp only [extract_entities_relations, List.countP_cons, List.countP_append]
    rw [runPair_snd,
      countP_flatMap_one _ _ (fun i => by cases oracle i <;> simp [List.countP_cons])]
    simp [List.length_range']

/-- Witness for `run_progress_trace`: chunk size 2 on a concrete
4-character text with the all-success oracle `w6oracle`. -/
theorem run_progress_trace_witness :
    (extract_entities_relations 2 w6oracle ("abcd".toList)).events
      = Event.progressInit ::
          (((List.range' 1 (chunkSplit 2 ("abcd".toList)).length).flatMap
            (fun i => Event.progressUpdate i (chunkSplit 2 ("abcd".toList)).length ::
              Event.callMade i ::
                (match w6oracle i with
                 | Except.ok _ => []
                 | Except.error _ => [Event.errorShown i])))
           ++ [Event.progressDone])
  ∧ ((extract_entities_relations 2 w6oracle ("abcd".toList)).events.countP
      (fun e => match e with
        | Event.progressUpdate _ _ => true
        | Event.progressDone => true
        | _ => false)) = (chunkSplit 2 ("abcd".toList)).length + 1 :=
  run_progress_trace 2 w6oracle ("abcd".toList) (by decide)

/-- C7, counterexample to the claim as stated: serializing an empty
aggregated result does not yield an empty table.  Python's
`"".strip().split("\n")` is `[""]`, so one row consisting of a single
empty field is written, which the csv writer emits as a quoted empty field
followed by the line terminator — the four bytes `"` `"` CR LF. -/
theorem empty_serialization_cex :
    convert_to_csv [] = [34, 34, 13, 10] ∧ convert_to_csv [] ≠ [] := by
  decide

/-- C7 (amended): zero-length document text yields zero segments and an
empty aggregated result, but serializing an empty aggregated result yields
one blank row — a quoted empty field and the line terminator, the bytes
`[34, 34, 13, 10]` — rather than an empty table. -/
theorem empty_input_behavior (c : Nat) (oracle : Oracle) :
    chunkSplit c [] = []
  ∧ (extract_entities_relations c oracle []).output = []
  ∧ convert_to_csv [] = [34, 34, 13, 10] := by
  refine ⟨chunkSplit_nil c, ?_, by decide⟩
  simp [extract_entities_relations, runPair, chunkSplit_nil, runLoop,
    List.intercalate]

/-- C8, counterexample to the claim as stated: the serializer does not
merely drop empty trailing lines — it strips all leading and trailing
whitespace (including leading line breaks) before splitting.  On the input
`"\na,b"` the code writes one row, while the claimed procedure (drop
trailing empty lines only) would keep the leading empty line and write an
additional blank row. -/
theorem serializer_leading_blank_cex :
    convert_to_csv_text ("\na,b".toList) = "a,b\r\n".toList
  ∧ claimStatedSerialize ("\na,b".toList) = "\"\"\r\na,b\r\n".toList
  ∧ convert_to_csv_text ("\na,b".toList) ≠ claimStatedSerialize ("\na,b".toList) := by
  decide

/-- C8 (amended): the serializer first strips the whole aggregated string
of leading and trailing whitespace (dropping leading as well as trailing
blank lines), splits the result into lines on `\n`, splits each line into
comma-separated fields with each field stripped of surrounding whitespace,
and writes exactly one table row per resulting line. -/
theorem serializer_strip_then_rows (s : Str) :
    convert_to_csv_text s
      = (((pyStrip s).splitOn '\n').map
          (fun line => csvRow ((line.splitOn ',').map pyStrip))).flatten := by
  unfold convert_to_csv_text
  rw [writerLoop_eq]
  simp

/-- C9: an input longer than 1,000,000 characters is truncated to its
first 1,000,000 characters, and only that prefix is chunked and
processed. -/
theorem input_cap_truncates (c : Nat) (oracle : Oracle) (s : Str)
    (h : 1000000 < s.length) :
    uploaded_file_run c oracle s = extract_entities_relations c oracle (s.take 1000000)
  ∧ (s.take 1000000).length = 1000000 := by
  constructor
  · simp only [uploaded_file_run]
    rw [if_pos (show s.length > 1000000 from h)]
  · rw [List.length_take]
    omega

/-- Witness for `input_cap_truncates`: a concrete text of 1,000,001
characters. -/
theorem input_cap_truncates_witness :
    uploaded_file_run 2 w9oracle w9text
      = extract_entities_relations 2 w9oracle (w9text.take 1000000)
  ∧ (w9text.take 1000000).length = 1000000 :=
  input_cap_truncates 2 w9oracle w9text
    (by simp only [w9text, List.length_replicate]; omega)

theorem char_toNat_lt_codepoints (ch : Char) : ch.toNat < 1114112 := by
  rcases ch.valid with h | ⟨h1, h2⟩
  · exact Nat.lt_trans h (by norm_num)
  · exact h2

theorem utf8Bytes_all_lt (ch : Char) :
    (utf8Bytes ch).all (fun b => decide (b < 256)) = true := by
  have hv : ch.toNat < 1114112 := char_toNat_lt_codepoints ch
  unfold utf8Bytes
  split_ifs with h1 h2 h3 <;> simp <;> omega

/-- C10: the tabular serializer is total on every input string — for every
aggregated string (unbalanced quotes, interior blank lines, ragged field
counts included) the embedded `convert_to_csv` is defined and yields a
sequence of genuine byte values (each below 256), the UTF-8 encoding of
the serialized table. -/
theorem convert_to_csv_yields_bytes (s : Str) :
    (convert_to_csv s).all (fun b => decide (b < 256)) = true := by
  unfold convert_to_csv encodeUtf8
  rw [List.all_eq_true]
  intro b hb
  rw [List.mem_flatMap] at hb
  obtain ⟨ch, _, hbch⟩ := hb
  have h := utf8Bytes_all_lt ch
  rw [List.all_eq_true] at h
  exact h b hbch
